import Mathlib

/-!
Verification of the Mihomo DoH ruleset generator against its design
specification.  The Python sources are shallowly embedded: strings are
`List Char`, byte strings are `List Nat` (each element < 256), Python
`dict`s (insertion-ordered) are association lists, and the impure
collaborators (DNS resolution plus the GeoIP backend, the per-attempt
HTTP responses) are passed in as explicit oracles.
-/

namespace DohRules

/-- Provider names, URLs, domains and reasons are Python strings. -/
abbrev Str := List Char

/-! ## Shared string helpers (Python `str` operations on `List Char`) -/

/-- Python whitespace for `str.strip()` (the ASCII whitespace characters;
the source only ever strips markdown table text, which is ASCII). -/
def isPySpace (c : Char) : Bool :=
  c = ' ' || c = '\t' || c = '\n' || c = '\r' || c = '\x0b' || c = '\x0c'

/-- Python `str.strip()`. -/
def stripL (l : Str) : Str :=
  ((l.dropWhile isPySpace).reverse.dropWhile isPySpace).reverse

/-- Python `str.split(sep)` for a one-character separator: keeps empty
pieces, and `"".split(sep) == [""]`. -/
def splitOnC (sep : Char) : Str → List Str
  | [] => [[]]
  | c :: rest =>
    let r := splitOnC sep rest
    if c = sep then [] :: r
    else
      match r with
      | [] => [[c]]
      | l :: ls => (c :: l) :: ls

/-- Does `needle` occur at the start of `hay`?  (Python `str.startswith`.) -/
def startsWithL : Str → Str → Bool
  | [], _ => true
  | _ :: _, [] => false
  | a :: as, b :: bs => a = b && startsWithL as bs

/-- Python substring containment `needle in hay`. -/
def containsL (needle : Str) : Str → Bool
  | [] => startsWithL needle []
  | b :: bs => startsWithL needle (b :: bs) || containsL needle bs

/-! ## `DoHTableParser` (src/src/parser.py) -/

/-- The table-start marker of `DoHTableParser.parse`. -/
def headerMarker : Str := "| Who runs it | Base URL |".data

/-- The separator-row marker of `DoHTableParser.parse`. -/
def sepMarker : Str := "|---".data

/-- A character ending a URL match of the regex `https://[^\s<>|)]+`. -/
def isUrlStopChar (c : Char) : Bool :=
  isPySpace c || c = '<' || c = '>' || c = '|' || c = ')'

/-- `re.findall(r'https://[^\s<>|)]+', text)`: left-to-right scan for
non-overlapping greedy matches.  The `Nat` argument counts positions still
inside the previous match, which the scan skips. -/
def findHttpsAux : Str → Nat → List Str
  | [], _ => []
  | _ :: rest, Nat.succ skip => findHttpsAux rest skip
  | c :: rest, 0 =>
    if startsWithL "https://".data (c :: rest) then
      let body := ((c :: rest).drop 8).takeWhile (fun ch => !isUrlStopChar ch)
      if body.length = 0 then findHttpsAux rest 0
      else ("https://".data ++ body) :: findHttpsAux rest (7 + body.length)
    else findHttpsAux rest 0

/-- Python `url.rstrip(')')`. -/
def rstripParen (l : Str) : Str :=
  (l.reverse.dropWhile (fun c => c = ')')).reverse

/-- `DoHTableParser._is_doh_url`'s pattern list. -/
def dohPatterns : List Str :=
  ["/dns-query".data, "/dns".data, "/doh".data, "/query".data,
    "dns.".data, "doh.".data]

/-- `DoHTableParser._is_doh_url`. -/
def isDohUrl (url : Str) : Bool :=
  dohPatterns.any (fun p => containsL p (url.map Char.toLower))

/-- `DoHTableParser._extract_doh_urls`. -/
def extractDohUrls (text : Str) : List Str :=
  (findHttpsAux text 0).filterMap (fun u =>
    let u2 := rstripParen u
    if isDohUrl u2 then some u2 else none)

/-- `re.search(r'\[([^\]]+)\]', s)`: the first `[` followed by at least one
non-`]` character and then a `]`; returns the captured group. -/
def searchBracket : Str → Option Str
  | [] => none
  | c :: rest =>
    if c = '[' then
      let body := rest.takeWhile (fun ch => ch ≠ ']')
      if body ≠ [] ∧ rest.dropWhile (fun ch => ch ≠ ']') ≠ [] then some body
      else searchBracket rest
    else searchBracket rest

/-- `DoHTableParser._extract_provider_name`.  Returns `some []` where the
Python code returns the falsy empty string (a bracketed group of spaces);
`parse` treats that like `None`. -/
def extractProviderName (line : Str) : Option Str :=
  let columns := (splitOnC '|' line).map stripL
  if columns.length < 2 then none
  else
    let who := columns.getD 1 []
    if startsWithL "**".data (stripL who) ∧ (stripL who).length ≤ 5 then none
    else if stripL who = [] then none
    else
      match searchBracket who with
      | some g => some (stripL g)
      | none => some (stripL who)

/-- Appending values to a key of an insertion-ordered dict
(`provider_urls[p].extend(urls)`, creating the entry if absent). -/
def dictExtend : List (Str × List Str) → Str → List Str → List (Str × List Str)
  | [], p, us => [(p, us)]
  | (q, vs) :: rest, p, us =>
    if q = p then (q, vs ++ us) :: rest else (q, vs) :: dictExtend rest p us

/-- `DoHTableParser._parse_table_row`: mutates `provider_urls` given the
current provider.  `if base_url_col.strip() and current_provider` requires
a non-empty URL cell and a truthy (non-`None`, non-empty) provider. -/
def parseTableRow (m : List (Str × List Str)) (line : Str) (cur : Option Str) :
    List (Str × List Str) :=
  let columns := (splitOnC '|' line).map stripL
  if columns.length < 4 then m
  else
    let baseUrlCol := columns.getD 2 []
    match cur with
    | none => m
    | some p =>
      if stripL baseUrlCol = [] ∨ p = [] then m
      else
        let urls := extractDohUrls baseUrlCol
        if urls = [] then m else dictExtend m p urls

/-- The scan state of `DoHTableParser.parse`: the current provider, the
`in_table` flag, and the accumulated `provider_urls` dict. -/
structure ParseState where
  cur : Option Str
  inTable : Bool
  m : List (Str × List Str)

/-- One iteration of the line loop of `DoHTableParser.parse`.  Note the
source parses a data row with the provider current *before* that row and
only afterwards updates the current provider from the row itself. -/
def parseLine (st : ParseState) (line : Str) : ParseState :=
  if containsL headerMarker line then { st with inTable := true }
  else if st.inTable ∧ (stripL line = [] ∨ startsWithL "#".data line) then
    { st with inTable := false }
  else if st.inTable ∧ containsL sepMarker line then st
  else if st.inTable ∧ startsWithL "|".data (stripL line) then
    let m2 := parseTableRow st.m line st.cur
    match extractProviderName line with
    | some p =>
      if p ≠ [] then { cur := some p, inTable := st.inTable, m := m2 }
      else { st with m := m2 }
    | none => { st with m := m2 }
  else st

/-- `DoHTableParser.parse`. -/
def parse (content : Str) : List (Str × List Str) :=
  ((splitOnC '\n' content).foldl parseLine ⟨none, false, []⟩).m

/-! ## `DoHTableParser.extract_domain` (urllib.parse.urlparse + netloc)

`urlparse` is modelled after CPython `Lib/urllib/parse.py` (3.8–3.10):
tab/CR/LF characters are removed, a leading `scheme:` is stripped when the
prefix is a well-formed scheme, the netloc is the text after `//` up to
the next `/`, `?` or `#`, and mismatched `[`/`]` brackets in the netloc
raise `ValueError` — the only exception the bare `except:` can see. -/

/-- A character allowed in a URL scheme. -/
def schemeChar (c : Char) : Bool := c.isAlphanum || c = '+' || c = '-' || c = '.'

/-- `urlsplit` removes `\t`, `\r`, `\n` from the URL before parsing. -/
def removeUnsafe (l : Str) : Str :=
  l.filter (fun c => !(c = '\t' || c = '\r' || c = '\n'))

/-- Strip a leading `scheme:` when the text before the first `:` is a
non-empty well-formed scheme starting with an ASCII letter. -/
def splitSchemeRest (l : Str) : Str :=
  match l.findIdx? (fun c => c = ':') with
  | none => l
  | some i =>
    if 0 < i ∧ (l.headD ' ').isAlpha ∧ (l.take i).all schemeChar then
      l.drop (i + 1)
    else l

/-- The netloc component `urlparse(url).netloc` before the bracket check:
empty unless the (scheme-stripped) URL starts with `//`. -/
def netlocRaw (l : Str) : Str :=
  let u := splitSchemeRest (removeUnsafe l)
  if startsWithL "//".data u then
    (u.drop 2).takeWhile (fun c => !(c = '/' || c = '?' || c = '#'))
  else []

/-- The `Invalid IPv6 URL` check of `urlsplit`. -/
def bracketMismatch (n : Str) : Bool :=
  (n.contains '[' && !n.contains ']') || (n.contains ']' && !n.contains '[')

/-- `urlparse(url).netloc`, with `ValueError` as `Except.error`. -/
def urlparseNetloc (l : Str) : Except Unit Str :=
  let n := netlocRaw l
  if bracketMismatch n then Except.error () else Except.ok n

/-- `DoHTableParser.extract_domain`: `urlparse(url).netloc`, with any
exception converted to `None` by the bare `try`/`except`. -/
def extract_domain (url : Str) : Option Str :=
  match urlparseNetloc url with
  | Except.ok n => some n
  | Except.error _ => none

/-! ## `GeoIPClassifier` (src/src/classifier.py, constants from config.py) -/

/-- config.py `CHINA_REGIONS = ['CN']`. -/
def CHINA_REGIONS : List Str := ["CN".data]

/-- config.py `CHINA_THRESHOLD = 0.5`.  The float ratio `china/total` is
compared against `0.5`; with `total ≤ MAX_URLS_PER_PROVIDER = 3` every
such comparison is exact, so the rational model is faithful. -/
def CHINA_THRESHOLD : ℚ := 1 / 2

/-- config.py `MAX_URLS_PER_PROVIDER = 3`. -/
def MAX_URLS_PER_PROVIDER : Nat := 3

/-- config.py `GEOIP_RETRY = 5`. -/
def GEOIP_RETRY : Nat := 5

/-- Decimal digits of a `Nat` (Python `str(n)` inside f-strings). -/
def natChars (n : Nat) : Str := Nat.toDigits 10 n

/-- Python `', '.join(details)`. -/
def joinCommaSep : List Str → Str
  | [] => []
  | [x] => x
  | x :: y :: rest => x ++ ", ".data ++ joinCommaSep (y :: rest)

/-- Banker's rounding of a rational, as Python `format` uses for `:.0%`. -/
def roundHalfEvenQ (q : ℚ) : ℤ :=
  let f := ⌊q⌋
  let r := q - (f : ℚ)
  if r < 1 / 2 then f
  else if (1 : ℚ) / 2 < r then f + 1
  else if 2 ∣ f then f else f + 1

/-- Python `f"{q:.0%}"`. -/
def pctChars (q : ℚ) : Str := natChars (roundHalfEvenQ (q * 100)).toNat ++ [ '%' ]

/-- The reason `"GeoIP 查询失败"` emitted when no URL produced a usable
country code (the spec's "lookup failed"). -/
def lookupFailedReason : Str := "GeoIP 查询失败".data

/-- The reason for an in-region verdict. -/
def inRegionReason (china total : Nat) (details : List Str) : Str :=
  "GeoIP: ".data ++ natChars china ++ "/".data ++ natChars total ++
    " 在中国地区 (".data ++ joinCommaSep details ++ ")".data

/-- The reason for an out-of-region verdict with a below-threshold ratio. -/
def belowThresholdReason (china total : Nat) (ratio : ℚ) : Str :=
  "GeoIP: ".data ++ natChars china ++ "/".data ++ natChars total ++
    " 在中国地区 (比例 ".data ++ pctChars ratio ++ " < ".data ++
    pctChars CHINA_THRESHOLD ++ ")".data

/-- The URL loop of `GeoIPClassifier._classify_provider`, accumulating
`(china_count, total_checked, details)`.  The oracle `geo` is
`_query_geoip`: `none` models both `None` (DNS or API failure) and, via
the extra emptiness test, a falsy empty country string. -/
def providerScan (geo : Str → Option Str) :
    List Str → Nat × Nat × List Str → Nat × Nat × List Str
  | [], acc => acc
  | url :: rest, (china, total, details) =>
    match extract_domain url with
    | none => providerScan geo rest (china, total, details)
    | some d =>
      if d = [] then providerScan geo rest (china, total, details)
      else
        match geo d with
        | none => providerScan geo rest (china, total, details)
        | some country =>
          if country = [] then providerScan geo rest (china, total, details)
          else if country ∈ CHINA_REGIONS then
            providerScan geo rest
              (china + 1, total + 1, details ++ [d ++ [ '→' ] ++ country])
          else providerScan geo rest (china, total + 1, details)

/-- `GeoIPClassifier._classify_provider`. -/
def classify_provider (geo : Str → Option Str) (urls : List Str) : Bool × Str :=
  let ctd := providerScan geo (urls.take MAX_URLS_PER_PROVIDER) (0, 0, [])
  if ctd.2.1 = 0 then (false, lookupFailedReason)
  else
    let ratio : ℚ := (ctd.1 : ℚ) / (ctd.2.1 : ℚ)
    if CHINA_THRESHOLD ≤ ratio then (true, inRegionReason ctd.1 ctd.2.1 ctd.2.2)
    else (false, belowThresholdReason ctd.1 ctd.2.1 ratio)

/-- The provider loop of `GeoIPClassifier.classify`, threading the three
result dicts. -/
def classifyFold (geo : Str → Option Str) :
    List (Str × List Str) → List (Str × List Str) → List (Str × List Str) →
    List (Str × Str) →
    List (Str × List Str) × List (Str × List Str) × List (Str × Str)
  | [], china, foreign, reasons => (china, foreign, reasons)
  | (p, urls) :: rest, china, foreign, reasons =>
    let v := classify_provider geo urls
    if v.1 then
      classifyFold geo rest (china ++ [(p, urls)]) foreign (reasons ++ [(p, v.2)])
    else
      classifyFold geo rest china (foreign ++ [(p, urls)]) (reasons ++ [(p, v.2)])

/-- `GeoIPClassifier.classify` on a freshly constructed classifier:
when `ENABLE_GEOIP` is false it returns `({}, provider_urls, {})`
without consulting the oracle. -/
def classify (enableGeoip : Bool) (geo : Str → Option Str)
    (provider_urls : List (Str × List Str)) :
    List (Str × List Str) × List (Str × List Str) × List (Str × Str) :=
  if enableGeoip = false then ([], provider_urls, [])
  else classifyFold geo provider_urls [] [] []

/-! ## `GeoIPClassifier._query_geoip_api` retry loop (C5)

An attempt's outcome is `Except.error ()` when the `try` body raises
(connection error, timeout, `raise_for_status` on an HTTP error, JSON
decode error) and `Except.ok data` when a response parses; `data` models
the JSON shape of the configured `'ip-api'` backend.  The embedding also
reports the number of attempts made and of 1-second sleeps taken, which
the Python loop performs as side effects. -/

/-- The `'ip-api'` JSON response fields read by the classifier. -/
structure IpApiData where
  status : Option Str
  countryCode : Option Str
deriving DecidableEq

/-- `GeoIPClassifier._extract_country_code` for the configured
`GEOIP_PROVIDER = 'ip-api'`. -/
def extract_country_code (data : IpApiData) : Option Str :=
  if data.status = some "success".data then data.countryCode else none

/-- The attempt loop of `_query_geoip_api`: `attempt` is the index of the
next attempt, `sleeps` the pauses taken so far, and the last argument the
number of loop iterations left.  Returns (result, attempts made, sleeps). -/
def queryGeoipApiAux (backend : Nat → Except Unit IpApiData) :
    Nat → Nat → Nat → Option Str × Nat × Nat
  | attempt, sleeps, 0 => (none, attempt, sleeps)
  | attempt, sleeps, remaining + 1 =>
    match backend attempt with
    | Except.ok data => (extract_country_code data, attempt + 1, sleeps)
    | Except.error _ =>
      if remaining = 0 then (none, attempt + 1, sleeps)
      else queryGeoipApiAux backend (attempt + 1) (sleeps + 1) remaining

/-- `GeoIPClassifier._query_geoip_api` with an instrumented trace. -/
def query_geoip_api (backend : Nat → Except Unit IpApiData) (retry : Nat) :
    Option Str × Nat × Nat :=
  queryGeoipApiAux backend 0 0 retry

/-! ## `RulesetGenerator._group_domains_by_provider` (src/src/generator.py) -/

/-- One URL of `_group_domains_by_provider`'s inner loop: skip a falsy or
already-seen domain, otherwise record it globally and under provider `p`. -/
def groupStep (p : Str) (st : List (Str × List Str) × List Str) (url : Str) :
    List (Str × List Str) × List Str :=
  match extract_domain url with
  | none => st
  | some d =>
    if d = [] ∨ d ∈ st.2 then st
    else (dictExtend st.1 p [d], st.2 ++ [d])

/-- `RulesetGenerator._group_domains_by_provider`.  The Python `all_domains`
is a set; the embedding keeps it as the list of domains in insertion order
(proved below to be duplicate-free). -/
def group_domains_by_provider (providers : List (Str × List Str)) :
    List (Str × List Str) × List Str :=
  providers.foldl (fun st x => x.2.foldl (groupStep x.1) st) ([], [])

/-- The domain a URL contributes (Python truthiness: `None` and the empty
netloc are both skipped). -/
def truthyDomain (url : Str) : Option Str :=
  match extract_domain url with
  | none => none
  | some d => if d = [] then none else some d

/-- Does some URL of the list contribute domain `d`? -/
def yieldsDomain (urls : List Str) (d : Str) : Bool :=
  urls.any (fun u => truthyDomain u == some d)

/-- The first provider, in map order, one of whose URLs contributes `d`. -/
def firstYielder : List (Str × List Str) → Str → Option Str
  | [], _ => none
  | (p, urls) :: rest, d =>
    if yieldsDomain urls d then some p else firstYielder rest d

/-! ## `GeositeGenerator` (src/src/geosite_converter.py) -/

/-- `GeositeGenerator.write_protobuf_varint`: little-endian 7-bit groups,
continuation bit `0x80` on every byte but the last.  `value & 0x7F` is
`value % 128`, and `| 0x80` on a 7-bit value is `+ 128`. -/
def write_protobuf_varint (value : Nat) : List Nat :=
  if 0x7F < value then
    (value % 0x80 + 0x80) :: write_protobuf_varint (value / 0x80)
  else
    [value % 0x80]
termination_by value
decreasing_by exact Nat.div_lt_self (by omega) (by norm_num)

/-- The standard varint decoding rule: a byte with the high bit set
contributes its low 7 bits and the remaining bytes, shifted left 7. -/
def decodeVarint : List Nat → Nat
  | [] => 0
  | b :: rest => if 0x80 ≤ b then b % 0x80 + 0x80 * decodeVarint rest else b % 0x80

/-- Python `str.encode('utf-8')` of a single character (valid Unicode
scalar values only, which `Char` guarantees). -/
def utf8EncodeCharN (c : Char) : List Nat :=
  let n := c.toNat
  if n < 0x80 then [n]
  else if n < 0x800 then [0xC0 + n / 0x40, 0x80 + n % 0x40]
  else if n < 0x10000 then
    [0xE0 + n / 0x1000, 0x80 + n / 0x40 % 0x40, 0x80 + n % 0x40]
  else
    [0xF0 + n / 0x40000, 0x80 + n / 0x1000 % 0x40, 0x80 + n / 0x40 % 0x40,
      0x80 + n % 0x40]

/-- Python `str.encode('utf-8')`. -/
def utf8Bytes (l : Str) : List Nat := l.flatMap utf8EncodeCharN

/-- `GeositeGenerator.write_protobuf_string`: tag byte
`(field_number << 3) | 2` (the low 3 bits are clear, so `|` is `+`),
then the varint length, then the UTF-8 data. -/
def write_protobuf_string (field_number : Nat) (value : Str) : List Nat :=
  write_protobuf_varint (field_number * 8 + 2)
    ++ write_protobuf_varint (utf8Bytes value).length
    ++ utf8Bytes value

/-- The literal `'full:'` tested by `encode_domain`. -/
def fullTag : Str := [ 'f', 'u', 'l', 'l', ':' ]

/-- The literal `'regexp:'` tested by `encode_domain`. -/
def regexpTag : Str := [ 'r', 'e', 'g', 'e', 'x', 'p', ':' ]

/-- The literal `'keyword:'` tested by `encode_domain`. -/
def keywordTag : Str := [ 'k', 'e', 'y', 'w', 'o', 'r', 'd', ':' ]

/-- `GeositeGenerator.encode_domain`: classify the domain string by its
prefix (`full:` → 3, `regexp:` → 1, `keyword:` → 0, plain → 0), strip the
prefix, and emit the nested length-delimited message.  Python slices
`domain[5:]`/`domain[7:]`/`domain[8:]` drop code points, i.e. `List.drop`. -/
def encode_domain (domain : Str) (field_number : Nat) : List Nat :=
  let tv : Nat × Str :=
    if startsWithL fullTag domain then (3, domain.drop 5)
    else if startsWithL regexpTag domain then (1, domain.drop 7)
    else if startsWithL keywordTag domain then (0, domain.drop 8)
    else (0, domain)
  let domain_message : List Nat :=
    write_protobuf_varint (1 * 8 + 0) ++ write_protobuf_varint tv.1
      ++ write_protobuf_string 2 tv.2
  write_protobuf_varint (field_number * 8 + 2)
    ++ write_protobuf_varint domain_message.length
    ++ domain_message

/-! ## Concrete inputs used by the end-to-end scenarios -/

/-- The three-line table of end-to-end scenario 1. -/
def scenario1Text : Str :=
  ("| Who runs it | Base URL | Working | Comment |\n" ++
   "|---|---|---|---|\n" ++
   "| [ACME](https://acme.example) | https://dns.acme.example/dns-query | Yes | |").data

/-- A `_query_geoip` oracle placing one domain in China and one abroad. -/
def geoC3 : Str → Option Str := fun d =>
  if d = "dns-cn.example".data then some "CN".data
  else if d = "dns-us.example".data then some "US".data
  else none

/-- Two URLs whose domains `geoC3` resolves, giving ratio exactly 1/2. -/
def urlsC3 : List Str :=
  ["https://dns-cn.example/dns-query".data,
   "https://dns-us.example/dns-query".data]

/-- A `_query_geoip` oracle for which every lookup fails. -/
def geoFailC4 : Str → Option Str := fun _ => none

/-- A single well-formed URL (whose sole lookup will fail under
`geoFailC4`). -/
def urlsC4 : List Str := ["https://dns.fail.example/dns-query".data]

/-- A backend whose every attempt yields HTTP 200 with JSON status
`"fail"` (a non-success response, not an exception). -/
def cexBackendC5 : Nat → Except Unit IpApiData :=
  fun _ => Except.ok ⟨some "fail".data, none⟩

/-- A successful `'ip-api'` JSON response locating the IP in China. -/
def okDataC5 : IpApiData := ⟨some "success".data, some "CN".data⟩

/-- A backend raising on attempt 0 and succeeding from attempt 1 on. -/
def backendC5 : Nat → Except Unit IpApiData :=
  fun k => if k = 0 then Except.error () else Except.ok okDataC5

/-- A two-provider map for the partition-totality witness. -/
def mC7 : List (Str × List Str) :=
  [("Alpha".data, ["https://dns-cn.example/dns-query".data]),
   ("Beta".data, ["https://dns.fail.example/dns-query".data])]

/-- Two providers, in alphabetical order, sharing the exact same domain. -/
def providersC9 : List (Str × List Str) :=
  [("alpha".data, ["https://dns.shared.example/dns-query".data]),
   ("beta".data, ["https://dns.shared.example/dns-query".data])]

/-- Claim C1 fails on the code: the scenario-1 table parses to the empty
map, not to `{"ACME": ["https://dns.acme.example/dns-query"]}`, because
the sole data row is parsed while the current provider is still `None`. -/
theorem parse_scenario1_eval :
    parse scenario1Text = [] ∧
      parse scenario1Text ≠
        [("ACME".data, ["https://dns.acme.example/dns-query".data])] := by
  constructor
  · decide
  · decide

/-! ## C2: `extract_domain` totality and (non-)emptiness -/

/-- Claim C6: with the geolocation flag false, `classify` consults no
oracle and returns exactly (empty map, the whole input map, empty map). -/
theorem classify_disabled (geo : Str → Option Str)
    (provider_urls : List (Str × List Str)) :
    classify false geo provider_urls = ([], provider_urls, []) := rfl

/-! ## C3 / C4: per-provider verdict -/

/-- Claim C3: for every provider whose scan checked at least one URL, the
verdict is in-region exactly when `china/total` reaches the threshold —
the comparison is `>=`, so a ratio exactly equal to the threshold is
classified in-region. -/
theorem classify_provider_threshold (geo : Str → Option Str) (urls : List Str)
    (china total : Nat) (details : List Str)
    (hscan : providerScan geo (urls.take MAX_URLS_PER_PROVIDER) (0, 0, []) =
      (china, total, details))
    (hpos : 0 < total) :
    (classify_provider geo urls).1 = true ↔
      CHINA_THRESHOLD ≤ (china : ℚ) / (total : ℚ) := by
  simp only [classify_provider, hscan]
  rw [if_neg (by omega : ¬ total = 0)]
  by_cases hr : CHINA_THRESHOLD ≤ (china : ℚ) / (total : ℚ)
  · simp [hr]
  · simp [hr]

theorem classify_provider_threshold_witness :
    (classify_provider geoC3 urlsC3).1 = true :=
  (classify_provider_threshold geoC3 urlsC3 1 2 [ "dns-cn.example→CN".data ]
    (by decide) (by norm_num)).mpr (by norm_num [CHINA_THRESHOLD])

/-- Claim C4: a provider none of whose sampled URLs produced a country
code (`total_checked = 0`; DNS failures and failed geolocation lookups
never enter the count) is classified out-of-region with the lookup-failed
reason (the source's literal `"GeoIP 查询失败"`). -/
theorem classify_provider_lookup_failed (geo : Str → Option Str)
    (urls : List Str) (china : Nat) (details : List Str)
    (hscan : providerScan geo (urls.take MAX_URLS_PER_PROVIDER) (0, 0, []) =
      (china, 0, details)) :
    classify_provider geo urls = (false, lookupFailedReason) := by
  simp [classify_provider, hscan]

theorem classify_provider_lookup_failed_witness :
    classify_provider geoFailC4 urlsC4 = (false, lookupFailedReason) :=
  classify_provider_lookup_failed geoFailC4 urlsC4 0 [] (by decide)

/-! ## C5: the GeoIP backend retry loop -/

/-- Claim C5 (counterexample): with `retryCount = 5` and a backend whose
first attempt is an HTTP-successful response with JSON status `"fail"`,
the loop returns absent after exactly 1 attempt and 0 pauses — a failed
(non-success) response does not trigger a pause-and-retry, and the
retries are not exhausted before absent is returned. -/
theorem query_geoip_api_cex :
    query_geoip_api cexBackendC5 GEOIP_RETRY = (none, 1, 0) ∧
      ¬(1 = GEOIP_RETRY ∧ 0 = GEOIP_RETRY - 1) := by
  constructor
  · decide
  · decide

lemma queryGeoipApiAux_allFail (backend : Nat → Except Unit IpApiData) :
    ∀ rem a s, 1 ≤ rem →
      (∀ k, a ≤ k → k < a + rem → backend k = Except.error ()) →
      queryGeoipApiAux backend a s rem = (none, a + rem, s + (rem - 1)) := by
  intro rem
  induction rem with
  | zero => intro a s h1 _; omega
  | succ r ih =>
    intro a s _ hfail
    have ha : backend a = Except.error () := hfail a le_rfl (by omega)
    by_cases hr : r = 0
    · subst hr
      simp [queryGeoipApiAux, ha]
    · simp only [queryGeoipApiAux, ha, if_neg hr]
      rw [ih (a + 1) (s + 1) (by omega)
        (fun k hk1 hk2 => hfail k (by omega) (by omega))]
      refine Prod.ext rfl (Prod.ext ?_ ?_) <;> simp <;> omega

lemma queryGeoipApiAux_okAt (backend : Nat → Except Unit IpApiData)
    (d : IpApiData) :
    ∀ rem a s j, j < rem →
      (∀ k, a ≤ k → k < a + j → backend k = Except.error ()) →
      backend (a + j) = Except.ok d →
      queryGeoipApiAux backend a s rem =
        (extract_country_code d, a + j + 1, s + j) := by
  intro rem
  induction rem with
  | zero => intro a s j hj _ _; omega
  | succ r ih =>
    intro a s j hj hfail hok
    cases j with
    | zero =>
      have hok0 : backend a = Except.ok d := by simpa using hok
      simp [queryGeoipApiAux, hok0]
    | succ j2 =>
      have ha : backend a = Except.error () := hfail a le_rfl (by omega)
      have hr : r ≠ 0 := by omega
      simp only [queryGeoipApiAux, ha, if_neg hr]
      rw [ih (a + 1) (s + 1) j2 (by omega)
        (fun k hk1 hk2 => hfail k (by omega) (by omega))
        (by rw [show a + 1 + j2 = a + (j2 + 1) from by omega]; exact hok)]
      refine Prod.ext rfl (Prod.ext ?_ ?_) <;> simp <;> omega

/-- Claim C5 (amended): on a cache miss the backend is attempted up to
`retryCount` times, but only an *exception* (including an HTTP error
status raised by the response check) triggers the 1-time-unit pause and
retry; absent is returned after all `retryCount` attempts raise, with
`retryCount - 1` pauses.  Any successfully parsed HTTP response ends the
loop at once, returning the extracted country code — absent when the JSON
indicates non-success — with no further attempts. -/
theorem query_geoip_api_retry (backend : Nat → Except Unit IpApiData)
    (retry j : Nat) (d : IpApiData) :
    ((1 ≤ retry) → (∀ k, k < retry → backend k = Except.error ()) →
      query_geoip_api backend retry = (none, retry, retry - 1))
    ∧ ((j < retry) → (∀ k, k < j → backend k = Except.error ()) →
      backend j = Except.ok d →
      query_geoip_api backend retry = (extract_country_code d, j + 1, j)) := by
  constructor
  · intro h1 hf
    have h := queryGeoipApiAux_allFail backend retry 0 0 h1
      (fun k _ hk2 => hf k (by omega))
    simpa using h
  · intro hj hf hok
    have h := queryGeoipApiAux_okAt backend d retry 0 0 j hj
      (fun k _ hk2 => hf k (by omega)) (by simpa using hok)
    simpa using h

theorem query_geoip_api_retry_witness :
    query_geoip_api backendC5 3 = (extract_country_code okDataC5, 2, 1) :=
  (query_geoip_api_retry backendC5 3 1 okDataC5).2 (by norm_num)
    (fun k hk => by
      have hk0 : k = 0 := by omega
      subst hk0
      rfl)
    rfl

/-! ## C7: partition totality of `classify` -/

lemma classifyFold_eq (geo : Str → Option Str) :
    ∀ (m : List (Str × List Str)) (c f : List (Str × List Str))
      (r : List (Str × Str)),
      classifyFold geo m c f r =
        (c ++ m.filter (fun x => (classify_provider geo x.2).1),
         f ++ m.filter (fun x => !(classify_provider geo x.2).1),
         r ++ m.map (fun x => (x.1, (classify_provider geo x.2).2))) := by
  intro m
  induction m with
  | nil => intro c f r; simp [classifyFold]
  | cons x rest ih =>
    intro c f r
    obtain ⟨p, urls⟩ := x
    simp only [classifyFold]
    by_cases hv : (classify_provider geo urls).1 = true
    · rw [if_pos hv, ih]
      simp [List.filter_cons, hv]
    · rw [if_neg hv, ih]
      simp only [Bool.not_eq_true] at hv
      simp [List.filter_cons, hv]

/-- Claim C7: with geolocation enabled, every provider of the input map
lands in exactly one of the two partitions — never both, never neither —
and the reason map has an entry for every partitioned provider. -/
theorem classify_partition (geo : Str → Option Str)
    (m : List (Str × List Str)) (hnd : (m.map Prod.fst).Nodup) (p : Str) :
    ((p ∈ (classify true geo m).1.map Prod.fst ∨
        p ∈ (classify true geo m).2.1.map Prod.fst) ↔ p ∈ m.map Prod.fst)
    ∧ ¬(p ∈ (classify true geo m).1.map Prod.fst ∧
        p ∈ (classify true geo m).2.1.map Prod.fst)
    ∧ ((p ∈ (classify true geo m).1.map Prod.fst ∨
        p ∈ (classify true geo m).2.1.map Prod.fst) →
      p ∈ (classify true geo m).2.2.map Prod.fst) := by
  have hc : classify true geo m = classifyFold geo m [] [] [] := rfl
  rw [hc, classifyFold_eq geo m [] [] []]
  simp only [List.nil_append]
  refine ⟨⟨?_, ?_⟩, ?_, ?_⟩
  · rintro (hp | hp) <;>
      (obtain ⟨x, hx, rfl⟩ := List.mem_map.mp hp;
       exact List.mem_map.mpr ⟨x, (List.mem_filter.mp hx).1, rfl⟩)
  · intro hp
    obtain ⟨x, hx, rfl⟩ := List.mem_map.mp hp
    by_cases hv : (classify_provider geo x.2).1 = true
    · exact Or.inl (List.mem_map.mpr ⟨x, List.mem_filter.mpr ⟨hx, hv⟩, rfl⟩)
    · refine Or.inr (List.mem_map.mpr ⟨x, List.mem_filter.mpr ⟨hx, ?_⟩, rfl⟩)
      simp only [Bool.not_eq_true] at hv
      simp [hv]
  · rintro ⟨hp1, hp2⟩
    obtain ⟨x, hx, hxp⟩ := List.mem_map.mp hp1
    obtain ⟨y, hy, hyp⟩ := List.mem_map.mp hp2
    have hxm := (List.mem_filter.mp hx).1
    have hym := (List.mem_filter.mp hy).1
    have hxy : x = y :=
      List.inj_on_of_nodup_map hnd hxm hym (hxp.trans hyp.symm)
    have hvx := (List.mem_filter.mp hx).2
    have hvy := (List.mem_filter.mp hy).2
    rw [hxy] at hvx
    simp [hvx] at hvy
  · intro hp
    have hkeys :
        (List.map (fun x => (x.1, (classify_provider geo x.2).2)) m).map
            Prod.fst = m.map Prod.fst := by
      simp [List.map_map, Function.comp]
    rw [hkeys]
    rcases hp with hp | hp <;>
      (obtain ⟨x, hx, rfl⟩ := List.mem_map.mp hp;
       exact List.mem_map.mpr ⟨x, (List.mem_filter.mp hx).1, rfl⟩)

theorem classify_partition_witness :
    (("Alpha".data ∈ (classify true geoC3 mC7).1.map Prod.fst ∨
        "Alpha".data ∈ (classify true geoC3 mC7).2.1.map Prod.fst) ↔
      "Alpha".data ∈ mC7.map Prod.fst)
    ∧ ¬("Alpha".data ∈ (classify true geoC3 mC7).1.map Prod.fst ∧
        "Alpha".data ∈ (classify true geoC3 mC7).2.1.map Prod.fst)
    ∧ (("Alpha".data ∈ (classify true geoC3 mC7).1.map Prod.fst ∨
        "Alpha".data ∈ (classify true geoC3 mC7).2.1.map Prod.fst) →
      "Alpha".data ∈ (classify true geoC3 mC7).2.2.map Prod.fst) :=
  classify_partition geoC3 mC7 (by decide) "Alpha".data

/-! ## C9: domain aggregation and global dedup -/

lemma yields_cons_iff (u : Str) (rest : List Str) (d : Str) :
    yieldsDomain (u :: rest) d = true ↔
      truthyDomain u = some d ∨ yieldsDomain rest d = true := by
  simp [yieldsDomain, List.any_cons]

lemma dictExtend_last (p d : Str) :
    ∀ (pd0 : List (Str × List Str)) (mine : List Str),
      p ∉ pd0.map Prod.fst →
      dictExtend (pd0 ++ [(p, mine)]) p [d] = pd0 ++ [(p, mine ++ [d])] := by
  intro pd0
  induction pd0 with
  | nil => intro mine _; simp [dictExtend]
  | cons x xs ih =>
    intro mine hp
    obtain ⟨q, vs⟩ := x
    have hq : ¬ q = p := fun e => hp (by simp [e])
    simp only [List.cons_append, dictExtend, if_neg hq, List.append_eq]
    rw [ih mine (fun hm => hp (by simp [hm]))]

lemma dictExtend_new (p d : Str) :
    ∀ (pd : List (Str × List Str)), p ∉ pd.map Prod.fst →
      dictExtend pd p [d] = pd ++ [(p, [d])] := by
  intro pd
  induction pd with
  | nil => intro _; simp [dictExtend]
  | cons x xs ih =>
    intro hp
    obtain ⟨q, vs⟩ := x
    have hq : ¬ q = p := fun e => hp (by simp [e])
    simp only [List.cons_append, dictExtend, if_neg hq]
    rw [ih (fun hm => hp (by simp [hm]))]

lemma firstYielder_append_some (d q : Str) :
    ∀ (l1 l2 : List (Str × List Str)), firstYielder l1 d = some q →
      firstYielder (l1 ++ l2) d = some q := by
  intro l1 l2
  induction l1 with
  | nil => intro h; exact absurd h (by simp [firstYielder])
  | cons x xs ih =>
    intro h
    obtain ⟨p, urls⟩ := x
    by_cases hy : yieldsDomain urls d = true
    · simp only [firstYielder, if_pos hy] at h
      simp only [List.cons_append, firstYielder, if_pos hy]
      exact h
    · simp only [firstYielder, if_neg hy] at h
      simp only [List.cons_append, firstYielder, if_neg hy]
      exact ih h

lemma firstYielder_eq_none (d : Str) :
    ∀ (l : List (Str × List Str)),
      (∀ x ∈ l, yieldsDomain x.2 d = false) → firstYielder l d = none := by
  intro l
  induction l with
  | nil => intro _; rfl
  | cons x xs ih =>
    intro h
    obtain ⟨p, urls⟩ := x
    have h0 : yieldsDomain urls d = false := h (p, urls) (List.mem_cons_self _ _)
    simp only [firstYielder]
    rw [if_neg (by simp [h0])]
    exact ih (fun y hy => h y (List.mem_cons_of_mem _ hy))

lemma firstYielder_append_none (d : Str) :
    ∀ (l1 l2 : List (Str × List Str)), firstYielder l1 d = none →
      firstYielder (l1 ++ l2) d = firstYielder l2 d := by
  intro l1 l2
  induction l1 with
  | nil => intro _; rfl
  | cons x xs ih =>
    intro h
    obtain ⟨p, urls⟩ := x
    by_cases hy : yieldsDomain urls d = true
    · simp [firstYielder, hy] at h
    · simp only [firstYielder, if_neg hy] at h
      simp only [List.cons_append, firstYielder, if_neg hy]
      exact ih h

lemma foldUrls_last (p : Str) :
    ∀ (urls : List Str) (pd0 : List (Str × List Str)) (mine all : List Str),
      p ∉ pd0.map Prod.fst →
      ∃ F, urls.foldl (groupStep p) (pd0 ++ [(p, mine)], all) =
          (pd0 ++ [(p, mine ++ F)], all ++ F) ∧
        (∀ d ∈ F, d ∉ all) ∧ F.Nodup ∧
        (∀ d, d ∈ all ++ F ↔ d ∈ all ∨ yieldsDomain urls d = true) := by
  intro urls
  induction urls with
  | nil =>
    intro pd0 mine all _
    refine ⟨[], by simp, by simp, List.nodup_nil, fun d => by simp [yieldsDomain]⟩
  | cons u rest ih =>
    intro pd0 mine all hp
    rw [List.foldl_cons]
    cases hext : extract_domain u with
    | none =>
      have ht : truthyDomain u = none := by simp [truthyDomain, hext]
      have hstep : groupStep p (pd0 ++ [(p, mine)], all) u =
          (pd0 ++ [(p, mine)], all) := by
        simp [groupStep, hext]
      rw [hstep]
      obtain ⟨F, heq, hfresh, hnd, hmem⟩ := ih pd0 mine all hp
      refine ⟨F, heq, hfresh, hnd, fun d0 => ?_⟩
      rw [hmem d0, yields_cons_iff, ht]
      simp
    | some d =>
      by_cases hd0 : d = []
      · have ht : truthyDomain u = none := by simp [truthyDomain, hext, hd0]
        have hstep : groupStep p (pd0 ++ [(p, mine)], all) u =
            (pd0 ++ [(p, mine)], all) := by
          simp [groupStep, hext, hd0]
        rw [hstep]
        obtain ⟨F, heq, hfresh, hnd, hmem⟩ := ih pd0 mine all hp
        refine ⟨F, heq, hfresh, hnd, fun d0 => ?_⟩
        rw [hmem d0, yields_cons_iff, ht]
        simp
      · have ht : truthyDomain u = some d := by simp [truthyDomain, hext, hd0]
        by_cases hdin : d ∈ all
        · have hstep : groupStep p (pd0 ++ [(p, mine)], all) u =
              (pd0 ++ [(p, mine)], all) := by
            simp [groupStep, hext, hdin]
          rw [hstep]
          obtain ⟨F, heq, hfresh, hnd, hmem⟩ := ih pd0 mine all hp
          refine ⟨F, heq, hfresh, hnd, fun d0 => ?_⟩
          rw [hmem d0, yields_cons_iff, ht]
          simp only [Option.some.injEq]
          constructor
          · rintro (h1 | h1)
            · exact Or.inl h1
            · exact Or.inr (Or.inr h1)
          · rintro (h1 | (h1 | h1))
            · exact Or.inl h1
            · exact Or.inl (h1 ▸ hdin)
            · exact Or.inr h1
        · have hstep : groupStep p (pd0 ++ [(p, mine)], all) u =
              (pd0 ++ [(p, mine ++ [d])], all ++ [d]) := by
            simp only [groupStep, hext]
            rw [if_neg (by push_neg; exact ⟨hd0, hdin⟩)]
            rw [dictExtend_last p d pd0 mine hp]
          rw [hstep]
          obtain ⟨F2, heq2, hfresh2, hnd2, hmem2⟩ :=
            ih pd0 (mine ++ [d]) (all ++ [d]) hp
          refine ⟨d :: F2, ?_, ?_, ?_, fun d0 => ?_⟩
          · rw [heq2]
            simp [List.append_assoc]
          · intro d0 hd0m
            rcases List.mem_cons.mp hd0m with rfl | hd0m
            · exact hdin
            · intro hall
              exact hfresh2 d0 hd0m (List.mem_append_left _ hall)
          · refine List.nodup_cons.mpr ⟨?_, hnd2⟩
            intro hdF2
            exact hfresh2 d hdF2
              (List.mem_append_right _ (List.mem_singleton.mpr rfl))
          · have hre : all ++ d :: F2 = (all ++ [d]) ++ F2 := by simp
            rw [hre, hmem2 d0, yields_cons_iff, ht]
            simp only [List.mem_append, List.mem_singleton, Option.some.injEq]
            constructor
            · rintro ((h1 | h1) | h1)
              · exact Or.inl h1
              · exact Or.inr (Or.inl h1.symm)
              · exact Or.inr (Or.inr h1)
            · rintro (h1 | (h1 | h1))
              · exact Or.inl (Or.inl h1)
              · exact Or.inl (Or.inr h1.symm)
              · exact Or.inr h1

lemma foldUrls_new (p : Str) :
    ∀ (urls : List Str) (pd : List (Str × List Str)) (all : List Str),
      p ∉ pd.map Prod.fst →
      ∃ F, urls.foldl (groupStep p) (pd, all) =
          ((if F = [] then pd else pd ++ [(p, F)]), all ++ F) ∧
        (∀ d ∈ F, d ∉ all) ∧ F.Nodup ∧
        (∀ d, d ∈ all ++ F ↔ d ∈ all ∨ yieldsDomain urls d = true) := by
  intro urls
  induction urls with
  | nil =>
    intro pd all _
    refine ⟨[], by simp, by simp, List.nodup_nil, fun d => by simp [yieldsDomain]⟩
  | cons u rest ih =>
    intro pd all hp
    rw [List.foldl_cons]
    cases hext : extract_domain u with
    | none =>
      have ht : truthyDomain u = none := by simp [truthyDomain, hext]
      have hstep : groupStep p (pd, all) u = (pd, all) := by
        simp [groupStep, hext]
      rw [hstep]
      obtain ⟨F, heq, hfresh, hnd, hmem⟩ := ih pd all hp
      refine ⟨F, heq, hfresh, hnd, fun d0 => ?_⟩
      rw [hmem d0, yields_cons_iff, ht]
      simp
    | some d =>
      by_cases hd0 : d = []
      · have ht : truthyDomain u = none := by simp [truthyDomain, hext, hd0]
        have hstep : groupStep p (pd, all) u = (pd, all) := by
          simp [groupStep, hext, hd0]
        rw [hstep]
        obtain ⟨F, heq, hfresh, hnd, hmem⟩ := ih pd all hp
        refine ⟨F, heq, hfresh, hnd, fun d0 => ?_⟩
        rw [hmem d0, yields_cons_iff, ht]
        simp
      · have ht : truthyDomain u = some d := by simp [truthyDomain, hext, hd0]
        by_cases hdin : d ∈ all
        · have hstep : groupStep p (pd, all) u = (pd, all) := by
            simp [groupStep, hext, hdin]
          rw [hstep]
          obtain ⟨F, heq, hfresh, hnd, hmem⟩ := ih pd all hp
          refine ⟨F, heq, hfresh, hnd, fun d0 => ?_⟩
          rw [hmem d0, yields_cons_iff, ht]
          simp only [Option.some.injEq]
          constructor
          · rintro (h1 | h1)
            · exact Or.inl h1
            · exact Or.inr (Or.inr h1)
          · rintro (h1 | (h1 | h1))
            · exact Or.inl h1
            · exact Or.inl (h1 ▸ hdin)
            · exact Or.inr h1
        · have hstep : groupStep p (pd, all) u = (pd ++ [(p, [d])], all ++ [d]) := by
            simp only [groupStep, hext]
            rw [if_neg (by push_neg; exact ⟨hd0, hdin⟩)]
            rw [dictExtend_new p d pd hp]
          rw [hstep]
          obtain ⟨F2, heq2, hfresh2, hnd2, hmem2⟩ :=
            foldUrls_last p rest pd [d] (all ++ [d]) hp
          refine ⟨d :: F2, ?_, ?_, ?_, fun d0 => ?_⟩
          · rw [heq2, if_neg (List.cons_ne_nil d F2)]
            simp [List.append_assoc]
          · intro d0 hd0m
            rcases List.mem_cons.mp hd0m with rfl | hd0m
            · exact hdin
            · intro hall
              exact hfresh2 d0 hd0m (List.mem_append_left _ hall)
          · refine List.nodup_cons.mpr ⟨?_, hnd2⟩
            intro hdF2
            exact hfresh2 d hdF2
              (List.mem_append_right _ (List.mem_singleton.mpr rfl))
          · have hre : all ++ d :: F2 = (all ++ [d]) ++ F2 := by simp
            rw [hre, hmem2 d0, yields_cons_iff, ht]
            simp only [List.mem_append, List.mem_singleton, Option.some.injEq]
            constructor
            · rintro ((h1 | h1) | h1)
              · exact Or.inl h1
              · exact Or.inr (Or.inl h1.symm)
              · exact Or.inr (Or.inr h1)
            · rintro (h1 | (h1 | h1))
              · exact Or.inl (Or.inl h1)
              · exact Or.inl (Or.inr h1.symm)
              · exact Or.inr h1

lemma groupFold_inv :
    ∀ (remaining done pd : List (Str × List Str)) (all : List Str),
      ((done ++ remaining).map Prod.fst).Nodup →
      (pd.map Prod.snd).flatten = all →
      all.Nodup →
      (∀ d, d ∈ all ↔ ∃ x ∈ done, yieldsDomain x.2 d = true) →
      (∀ q ds d2, (q, ds) ∈ pd → d2 ∈ ds → firstYielder done d2 = some q) →
      (∀ q, q ∈ pd.map Prod.fst → q ∈ done.map Prod.fst) →
      ((remaining.foldl (fun st x => x.2.foldl (groupStep x.1) st)
            (pd, all)).1.map Prod.snd).flatten =
          (remaining.foldl (fun st x => x.2.foldl (groupStep x.1) st)
            (pd, all)).2 ∧
        (remaining.foldl (fun st x => x.2.foldl (groupStep x.1) st)
          (pd, all)).2.Nodup ∧
        (∀ q ds d2,
          (q, ds) ∈ (remaining.foldl (fun st x => x.2.foldl (groupStep x.1) st)
            (pd, all)).1 →
          d2 ∈ ds → firstYielder (done ++ remaining) d2 = some q) ∧
        (∀ d, d ∈ (remaining.foldl (fun st x => x.2.foldl (groupStep x.1) st)
            (pd, all)).2 ↔
          ∃ x ∈ done ++ remaining, yieldsDomain x.2 d = true) := by
  intro remaining
  induction remaining with
  | nil =>
    intro done pd all _ hjoin hallnd hallmem hfirst _
    refine ⟨hjoin, hallnd, fun q ds d2 hqm hdm => ?_, fun d => ?_⟩
    · simpa using hfirst q ds d2 hqm hdm
    · simpa using hallmem d
  | cons x rest ih =>
    intro done pd all hnd hjoin hallnd hallmem hfirst hkeys
    obtain ⟨p, urls⟩ := x
    have hassoc : done ++ (p, urls) :: rest = (done ++ [(p, urls)]) ++ rest := by
      simp
    have hnd2 : (((done ++ [(p, urls)]) ++ rest).map Prod.fst).Nodup := by
      rw [← hassoc]; exact hnd
    have hsplit : ((done.map Prod.fst) ++ (p :: rest.map Prod.fst)).Nodup := by
      simpa using hnd
    have hpdone : p ∉ done.map Prod.fst := by
      intro hmem
      exact (List.nodup_append.mp hsplit).2.2 hmem (List.mem_cons_self _ _)
    have hppd : p ∉ pd.map Prod.fst := fun hm => hpdone (hkeys p hm)
    obtain ⟨F, heq, hfresh, hndF, hmemF⟩ := foldUrls_new p urls pd all hppd
    simp only [List.foldl_cons]
    rw [heq, hassoc]
    by_cases hF : F = []
    · subst hF
      rw [if_pos rfl] at heq ⊢
      simp only [List.append_nil] at hmemF ⊢
      refine ih (done ++ [(p, urls)]) pd all hnd2 hjoin hallnd ?_ ?_ ?_
      · intro d
        rw [hallmem d]
        constructor
        · rintro ⟨y, hy, hyy⟩
          exact ⟨y, List.mem_append_left _ hy, hyy⟩
        · rintro ⟨y, hy, hyy⟩
          rcases List.mem_append.mp hy with hy | hy
          · exact ⟨y, hy, hyy⟩
          · rcases List.mem_singleton.mp hy with rfl
            have : d ∈ all := by rw [hmemF d]; exact Or.inr hyy
            rw [hallmem d] at this
            exact this
      · intro q ds d2 hqm hdm
        exact firstYielder_append_some d2 q done [(p, urls)]
          (hfirst q ds d2 hqm hdm)
      · intro q hq
        simp only [List.map_append]
        exact List.mem_append_left _ (hkeys q hq)
    · rw [if_neg hF] at heq ⊢
      have hdisj : all.Disjoint F := List.disjoint_left.mpr fun a ha hf =>
        hfresh a hf ha
      refine ih (done ++ [(p, urls)]) (pd ++ [(p, F)]) (all ++ F) hnd2 ?_ ?_ ?_ ?_ ?_
      · simp only [List.map_append, List.flatten_append]
        rw [hjoin]
        simp
      · exact List.nodup_append.mpr ⟨hallnd, hndF, hdisj⟩
      · intro d
        rw [hmemF d, hallmem d]
        constructor
        · rintro (⟨y, hy, hyy⟩ | hyield)
          · exact ⟨y, List.mem_append_left _ hy, hyy⟩
          · exact ⟨(p, urls),
              List.mem_append_right _ (List.mem_singleton.mpr rfl), hyield⟩
        · rintro ⟨y, hy, hyy⟩
          rcases List.mem_append.mp hy with hy | hy
          · exact Or.inl ⟨y, hy, hyy⟩
          · rcases List.mem_singleton.mp hy with rfl
            exact Or.inr hyy
      · intro q ds d2 hqm hdm
        rcases List.mem_append.mp hqm with hqm | hqm
        · exact firstYielder_append_some d2 q done [(p, urls)]
            (hfirst q ds d2 hqm hdm)
        · have hq : q = p := congrArg Prod.fst (List.mem_singleton.mp hqm)
          have hds : ds = F := congrArg Prod.snd (List.mem_singleton.mp hqm)
          rw [hds] at hdm
          rw [hq]
          have hd2all : d2 ∉ all := hfresh d2 hdm
          have hnone : firstYielder done d2 = none := by
            refine firstYielder_eq_none d2 done fun y hy => ?_
            rcases Bool.eq_false_or_eq_true (yieldsDomain y.2 d2) with h | h
            · exact absurd ((hallmem d2).mpr ⟨y, hy, h⟩) hd2all
            · exact h
          rw [firstYielder_append_none d2 done [(p, urls)] hnone]
          have hyield : yieldsDomain urls d2 = true := by
            have : d2 ∈ all ++ F := List.mem_append_right _ hdm
            rw [hmemF d2] at this
            rcases this with h | h
            · exact absurd h hd2all
            · exact h
          simp [firstYielder, hyield]
      · intro q hq
        simp only [List.map_append, List.mem_append] at hq ⊢
        rcases hq with hq | hq
        · exact Or.inl (hkeys q hq)
        · exact Or.inr (by simpa using hq)

/-- Claim C9: the aggregation step, fed a map with distinct provider keys
(as a Python dict guarantees), assigns each extracted domain to the first
provider that yields it: the combined domain list is duplicate-free and
contains exactly the domains some provider's URL yields (each appears,
none is dropped), the per-provider lists concatenate to exactly that
combined list — so every such domain appears exactly once in the combined
set and in exactly one provider's per-provider list — and every listed
domain sits under the first provider, in map iteration order, one of
whose URLs yields it. -/
theorem group_domains_partition (providers : List (Str × List Str))
    (hnd : (providers.map Prod.fst).Nodup) :
    ((group_domains_by_provider providers).1.map Prod.snd).flatten =
        (group_domains_by_provider providers).2 ∧
      (group_domains_by_provider providers).2.Nodup ∧
      (∀ q ds d, (q, ds) ∈ (group_domains_by_provider providers).1 → d ∈ ds →
        firstYielder providers d = some q) ∧
      (∀ d, d ∈ (group_domains_by_provider providers).2 ↔
        ∃ x ∈ providers, yieldsDomain x.2 d = true) := by
  have h := groupFold_inv providers [] [] [] (by simpa using hnd) rfl
    List.nodup_nil (fun d => by simp) (fun q ds d2 h1 => by simp at h1)
    (fun q h1 => by simp at h1)
  simpa [group_domains_by_provider] using h

theorem group_domains_partition_witness :
    (((group_domains_by_provider providersC9).1.map Prod.snd).flatten =
        (group_domains_by_provider providersC9).2 ∧
      (group_domains_by_provider providersC9).2.Nodup ∧
      (∀ q ds d, (q, ds) ∈ (group_domains_by_provider providersC9).1 → d ∈ ds →
        firstYielder providersC9 d = some q) ∧
      (∀ d, d ∈ (group_domains_by_provider providersC9).2 ↔
        ∃ x ∈ providersC9, yieldsDomain x.2 d = true)) ∧
      group_domains_by_provider providersC9 =
        ([("alpha".data, ["dns.shared.example".data])],
          ["dns.shared.example".data]) :=
  ⟨group_domains_partition providersC9 (by decide), by decide⟩

/-! ## C8: varint round trip -/

lemma write_protobuf_varint_small (v : Nat) (h : v ≤ 0x7F) :
    write_protobuf_varint v = [v] := by
  rw [write_protobuf_varint]
  simp [Nat.not_lt.mpr h, Nat.mod_eq_of_lt (by omega : v < 0x80)]

lemma decodeVarint_write_protobuf_varint (n : Nat) :
    decodeVarint (write_protobuf_varint n) = n := by
  induction n using Nat.strong_induction_on with
  | _ n ih =>
    rw [write_protobuf_varint]
    by_cases h : 0x7F < n
    · have hdiv : n / 0x80 < n := Nat.div_lt_self (by omega) (by norm_num)
      simp only [if_pos h, decodeVarint]
      have hmod : n % 0x80 < 0x80 := Nat.mod_lt _ (by norm_num)
      rw [if_pos (by omega : 0x80 ≤ n % 0x80 + 0x80)]
      rw [ih _ hdiv]
      omega
    · simp only [if_neg h, decodeVarint]
      have hn : n < 0x80 := by omega
      rw [if_neg (by omega : ¬ 0x80 ≤ n % 0x80)]
      simp [Nat.mod_eq_of_lt hn]

/-- Claim C8: for every non-negative integer `n` in `[0, 2^32)`, encoding
`n` with the varint writer and decoding the bytes with the standard varint
rule recovers `n`.  (The round trip in fact holds for every `Nat`.) -/
theorem varint_roundtrip (n : Nat) (_h : n < 2 ^ 32) :
    decodeVarint (write_protobuf_varint n) = n :=
  decodeVarint_write_protobuf_varint n

theorem varint_roundtrip_witness :
    2 ^ 31 < 2 ^ 32 ∧ decodeVarint (write_protobuf_varint (2 ^ 31)) = 2 ^ 31 :=
  ⟨by norm_num, varint_roundtrip (2 ^ 31) (by norm_num)⟩

/-! ## C10: keyword-typed and plain-typed entries on the wire -/

lemma startsWithL_cons (a b : Char) (as bs : Str) :
    startsWithL (a :: as) (b :: bs) = ((a = b) && startsWithL as bs) := rfl

lemma startsWithL_keywordTag_append (s : Str) :
    startsWithL keywordTag (keywordTag ++ s) = true := by
  simp [keywordTag, startsWithL]

lemma startsWithL_fullTag_keyword (s : Str) :
    startsWithL fullTag (keywordTag ++ s) = false := by
  simp [keywordTag, fullTag, startsWithL]

lemma startsWithL_regexpTag_keyword (s : Str) :
    startsWithL regexpTag (keywordTag ++ s) = false := by
  simp [keywordTag, regexpTag, startsWithL]

lemma drop_keywordTag_append (s : Str) :
    (keywordTag ++ s).drop 8 = s := by
  have h : keywordTag.length = 8 := rfl
  rw [← h, List.drop_left]

/-- Claim C10 (counterexample): for `s = "full:x"` the encoder does not
produce byte-identical output for `"keyword:" ++ s` and `s`: the plain
input takes the `full:` branch (type 3, value `"x"`) while the prefixed
input takes the `keyword:` branch (type 0, value `"full:x"`). -/
theorem encode_domain_keyword_cex :
    encode_domain (keywordTag ++ (fullTag ++ [ 'x' ])) 2 ≠
      encode_domain (fullTag ++ [ 'x' ]) 2 := by
  simp [encode_domain, write_protobuf_string, utf8Bytes, utf8EncodeCharN,
    fullTag, regexpTag, keywordTag, startsWithL, write_protobuf_varint_small]

/-- Claim C10 (amended): for every string `s` that does not itself start
with `full:`, `regexp:` or `keyword:`, the binary domain encoder produces
byte-identical output for the input `"keyword:" ++ s` and the unprefixed
input `s`: both are emitted with DomainType 0 and DomainValue `s`. -/
theorem encode_domain_keyword_eq_plain (s : Str) (fn : Nat)
    (h1 : startsWithL fullTag s = false)
    (h2 : startsWithL regexpTag s = false)
    (h3 : startsWithL keywordTag s = false) :
    encode_domain (keywordTag ++ s) fn = encode_domain s fn := by
  unfold encode_domain
  rw [startsWithL_fullTag_keyword, startsWithL_regexpTag_keyword,
    startsWithL_keywordTag_append, h1, h2, h3]
  simp [drop_keywordTag_append]

theorem encode_domain_keyword_eq_plain_witness :
    encode_domain (keywordTag ++ [ 'd', 'n', 's', '.', 'x' ]) 2 =
      encode_domain [ 'd', 'n', 's', '.', 'x' ] 2 :=
  encode_domain_keyword_eq_plain [ 'd', 'n', 's', '.', 'x' ] 2
    (by decide) (by decide) (by decide)

end DohRules
